import Mathlib

/-!
# Verification of the harbinger conflict-detection and resolution engine

Shallow embedding of the core of the `javanhut/harbinger` repository:

* the conflict-marker parser (`internal/conflict`): the repository carries two
  revisions of `parseConflict`; the current one (the revision the package tests
  compile against, in the unnamed conflict-package file) flushes a pending
  buffer only when it is non-empty after whitespace trimming, while the older
  revision in `internal/conflict/resolver.go` flushes whenever the raw buffer
  is non-empty.  Both are embedded (`parseConflict` and `parseConflictRaw`).
* the git repository adapter (`internal/git/repository.go`): branch-name
  validation, commit resolution, sync evaluation and the non-destructive
  merge simulation `CheckForConflicts`.  External `git` invocations are
  modelled by an oracle mapping an argv list to a result; every embedded
  operation additionally returns the exact trace of argv lists it issued.
* the interactive resolution session (`ResolveConflicts`) driven by a scripted
  input list, with the external side effects (checkout/stage/editor) given by
  an action record.
* the monitor's per-tick evaluation `checkForChanges` (the revision with
  sync-status tracking that the monitor package tests compile against).
-/

namespace Harbinger

/-! ## Basic string helpers mirroring the Go standard library -/

/-- Characters treated as white space by `strings.TrimSpace` (ASCII part). -/
def isSpaceChar (c : Char) : Bool :=
  c = ' ' || c = '\t' || c = '\n' || c = '\x0b' || c = '\x0c' || c = '\r'

/-- Trim leading and trailing white space from a character list
(`strings.TrimSpace` on the ASCII range). -/
def trimChars (l : List Char) : List Char :=
  ((l.dropWhile isSpaceChar).reverse.dropWhile isSpaceChar).reverse

/-- `strings.TrimSpace` on strings. -/
def trimSpace (s : String) : String := ⟨trimChars s.data⟩

/-- Split a character list at newline characters, keeping empty pieces:
the semantics of `strings.Split(s, "\n")`. -/
def splitLinesAux : List Char → List Char → List (List Char)
  | [], acc => [acc.reverse]
  | '\n' :: rest, acc => acc.reverse :: splitLinesAux rest []
  | c :: rest, acc => splitLinesAux rest (c :: acc)

/-- The lines of a string, as `strings.Split(s, "\n")` produces them. -/
def splitLines (s : List Char) : List (List Char) := splitLinesAux s []

/-- Substring containment on character lists (`strings.Contains`). -/
def listContains (needle : List Char) : List Char → Bool
  | [] => needle.isEmpty
  | c :: cs => needle.isPrefixOf (c :: cs) || listContains needle cs

/-- `strings.Contains` on strings. -/
def strContains (hay needle : String) : Bool := listContains needle.data hay.data

/-! ## Conflict marker parser (`internal/conflict`)

The `ConflictSection.Type` field of the Go struct ranges over the three string
values `"normal"`, `"ours"`, `"theirs"`; it is embedded as an inductive type. -/

inductive SectionKind
  | normal
  | ours
  | theirs
deriving DecidableEq, Repr

structure ConflictSection where
  kind : SectionKind
  content : List Char
deriving DecidableEq, Repr

/-- `strings.HasPrefix` on character lists (needle first). -/
def prefixMatch : List Char → List Char → Bool
  | [], _ => true
  | _ :: _, [] => false
  | p :: ps, c :: cs => p == c && prefixMatch ps cs

/-- The `<<<<<<<` ours-open marker. -/
def oursMarker : List Char := "<<<<<<<".data

/-- The `=======` separator marker. -/
def sepMarker : List Char := "=======".data

/-- The `>>>>>>>` theirs-close marker. -/
def closeMarker : List Char := ">>>>>>>".data

/-- Loop body of the current `parseConflict` (unnamed conflict-package file,
the revision the package tests compile against): a pending buffer is flushed
at a `<<<<<<<` line and at end of input only when it is non-empty after
`strings.TrimSpace`; the flushes at `=======` and `>>>>>>>` are unconditional
and require the `inConflict` flag. -/
def parseLinesTrim : List (List Char) → SectionKind → List Char → Bool → List ConflictSection
  | [], kind, buf, _ =>
    if (trimChars buf).isEmpty then [] else [⟨kind, buf⟩]
  | line :: rest, kind, buf, inConflict =>
    if prefixMatch oursMarker line then
      (if (trimChars buf).isEmpty then [] else [⟨kind, buf⟩])
        ++ parseLinesTrim rest .ours [] true
    else if prefixMatch sepMarker line && inConflict then
      ⟨kind, buf⟩ :: parseLinesTrim rest .theirs [] true
    else if prefixMatch closeMarker line && inConflict then
      ⟨kind, buf⟩ :: parseLinesTrim rest .normal [] false
    else
      parseLinesTrim rest kind (buf ++ line ++ ['\n']) inConflict

/-- The current `parseConflict` (trim-flushing revision). -/
def parseConflict (content : String) : List ConflictSection :=
  parseLinesTrim (splitLines content.data) .normal [] false

/-- Loop body of the older `parseConflict` revision in
`internal/conflict/resolver.go`: identical to `parseLinesTrim` except that the
conditional flushes test the raw buffer against the empty string
(`currentSection.Content != ""`) without trimming. -/
def parseLinesRaw : List (List Char) → SectionKind → List Char → Bool → List ConflictSection
  | [], kind, buf, _ =>
    if buf.isEmpty then [] else [⟨kind, buf⟩]
  | line :: rest, kind, buf, inConflict =>
    if prefixMatch oursMarker line then
      (if buf.isEmpty then [] else [⟨kind, buf⟩])
        ++ parseLinesRaw rest .ours [] true
    else if prefixMatch sepMarker line && inConflict then
      ⟨kind, buf⟩ :: parseLinesRaw rest .theirs [] true
    else if prefixMatch closeMarker line && inConflict then
      ⟨kind, buf⟩ :: parseLinesRaw rest .normal [] false
    else
      parseLinesRaw rest kind (buf ++ line ++ ['\n']) inConflict

/-- The `parseConflict` revision of `internal/conflict/resolver.go`. -/
def parseConflictRaw (content : String) : List ConflictSection :=
  parseLinesRaw (splitLines content.data) .normal [] false

/-- Does the section's content contain the given text (`assert.Contains`)? -/
def sectionContains (s : ConflictSection) (t : String) : Bool :=
  listContains t.data s.content

/-- The end-to-end input of the spec's scenario. -/
def scenarioInput : String :=
  "line before\n<<<<<<< HEAD\nour change\n=======\ntheir change\n>>>>>>> branch\nline after\n"

end Harbinger

namespace Harbinger

/-- C5: parsing the scenario input yields exactly 4 sections of kinds
normal, ours, theirs, normal containing "line before", "our change",
"their change" and "line after" respectively; this holds for the current
parser and for the `resolver.go` revision alike. -/
theorem parseConflict_scenario :
    (parseConflict scenarioInput).map ConflictSection.kind
        = [.normal, .ours, .theirs, .normal]
      ∧ sectionContains ((parseConflict scenarioInput).getD 0 ⟨.normal, []⟩) "line before" = true
      ∧ sectionContains ((parseConflict scenarioInput).getD 1 ⟨.normal, []⟩) "our change" = true
      ∧ sectionContains ((parseConflict scenarioInput).getD 2 ⟨.normal, []⟩) "their change" = true
      ∧ sectionContains ((parseConflict scenarioInput).getD 3 ⟨.normal, []⟩) "line after" = true
      ∧ parseConflictRaw scenarioInput = parseConflict scenarioInput := by
  decide

/-- C6: the current `parseConflict` maps the empty string to the empty
section sequence (the conditional final flush drops the whitespace-only
buffer produced by the single empty line). -/
theorem parseConflict_empty : parseConflict "" = [] := by decide

/-- A pending buffer on which the two revisions' conditional flush tests
agree: either empty (neither flushes) or non-empty after trimming (both
flush). -/
def flushAgrees (buf : List Char) : Bool :=
  buf.isEmpty || !(trimChars buf).isEmpty

/-- Instrumented run of the shared parser loop that records whether every
conditionally flushed buffer (the buffer pending at each `<<<<<<<` line and
at end of input) satisfies `flushAgrees`. -/
def condFlushAgree : List (List Char) → List Char → Bool → Bool
  | [], buf, _ => flushAgrees buf
  | line :: rest, buf, inConflict =>
    if prefixMatch oursMarker line then
      flushAgrees buf && condFlushAgree rest [] true
    else if prefixMatch sepMarker line && inConflict then
      condFlushAgree rest [] true
    else if prefixMatch closeMarker line && inConflict then
      condFlushAgree rest [] false
    else
      condFlushAgree rest (buf ++ line ++ ['\n']) inConflict

theorem trimChars_nil : trimChars [] = [] := rfl

theorem parseLines_raw_eq_trim (lines : List (List Char)) :
    ∀ kind buf inConflict, condFlushAgree lines buf inConflict = true →
      parseLinesRaw lines kind buf inConflict = parseLinesTrim lines kind buf inConflict := by
  induction lines with
  | nil =>
    intro kind buf inConflict h
    simp only [condFlushAgree, flushAgrees, Bool.or_eq_true] at h
    simp only [parseLinesRaw, parseLinesTrim]
    rcases h with h | h
    · have hb : buf = [] := by
        cases buf with
        | nil => rfl
        | cons c cs => simp [List.isEmpty] at h
      subst hb
      simp [trimChars_nil]
    · have hb : buf.isEmpty = false := by
        cases buf with
        | nil => simp [trimChars_nil] at h
        | cons c cs => rfl
      simp only [Bool.not_eq_true'] at h
      simp [hb, h]
  | cons line rest ih =>
    intro kind buf inConflict h
    simp only [condFlushAgree] at h
    simp only [parseLinesRaw, parseLinesTrim]
    by_cases h1 : prefixMatch oursMarker line = true
    · simp only [h1, if_true, Bool.and_eq_true] at h
      simp only [h1, if_true]
      rw [ih _ _ _ h.2]
      rcases Bool.or_eq_true _ _ |>.mp h.1 with hb | hb
      · have hb' : buf = [] := by
          cases buf with
          | nil => rfl
          | cons c cs => simp [List.isEmpty] at hb
        subst hb'
        simp [trimChars_nil]
      · have hbe : buf.isEmpty = false := by
          cases buf with
          | nil => simp [trimChars_nil] at hb
          | cons c cs => rfl
        simp only [Bool.not_eq_true'] at hb
        simp [hbe, hb]
    · rw [Bool.not_eq_true] at h1
      simp only [h1] at h ⊢
      simp only [Bool.false_eq_true, if_false] at h ⊢
      by_cases h2 : (prefixMatch sepMarker line && inConflict) = true
      · simp only [h2, if_true] at h ⊢
        rw [ih _ _ _ h]
      · rw [Bool.not_eq_true] at h2
        simp only [h2, Bool.false_eq_true, if_false] at h ⊢
        by_cases h3 : (prefixMatch closeMarker line && inConflict) = true
        · simp only [h3, if_true] at h ⊢
          rw [ih _ _ _ h]
        · rw [Bool.not_eq_true] at h3
          simp only [h3, Bool.false_eq_true, if_false] at h ⊢
          exact ih _ _ _ h

/-- C10 counterexample: the two `parseConflict` revisions disagree on the
empty string — the `resolver.go` revision flushes the `"\n"` buffer produced
by the single empty line, the current revision trims it away. -/
theorem parseConflict_revisions_differ :
    parseConflictRaw "" = [⟨.normal, ['\n']⟩] ∧ parseConflict "" = [] := by
  decide

/-- C10 (amended): the two `parseConflict` revisions return identical section
sequences on every input in which each buffer pending at a `<<<<<<<` line or
at end of input is either empty or contains a non-whitespace character. -/
theorem parseConflict_revisions_agree (s : String)
    (h : condFlushAgree (splitLines s.data) [] false = true) :
    parseConflictRaw s = parseConflict s :=
  parseLines_raw_eq_trim _ _ _ _ h

/-- Witness for C10 (amended) at the scenario input. -/
theorem parseConflict_revisions_agree_witness :
    condFlushAgree (splitLines scenarioInput.data) [] false = true
      ∧ parseConflictRaw scenarioInput = parseConflict scenarioInput :=
  ⟨by decide, parseConflict_revisions_agree scenarioInput (by decide)⟩

/-- No `theirs` section is immediately preceded by a `normal` section. -/
def noNormalBeforeTheirs : List ConflictSection → Bool
  | [] => true
  | [_] => true
  | a :: b :: rest =>
    !(decide (a.kind = SectionKind.normal) && decide (b.kind = SectionKind.theirs))
      && noNormalBeforeTheirs (b :: rest)

theorem noNormalBeforeTheirs_cons (a : ConflictSection) (l : List ConflictSection)
    (h : noNormalBeforeTheirs l = true)
    (hh : ∀ b rest, l = b :: rest → b.kind = SectionKind.theirs →
      a.kind ≠ SectionKind.normal) :
    noNormalBeforeTheirs (a :: l) = true := by
  cases l with
  | nil => rfl
  | cons b rest =>
    refine (Bool.and_eq_true _ _).mpr ⟨?_, h⟩
    by_cases hbt : b.kind = SectionKind.theirs
    · have := hh b rest rfl hbt
      simp [this]
    · simp [hbt]

/-- State invariant of the trim-flushing parser loop: while `inConflict`
mirrors whether the current section kind is non-normal, the emitted sections
never place a `normal` section immediately before a `theirs` section, and the
first emitted section is `theirs` only if the current kind already is. -/
theorem parseLinesTrim_ordering (lines : List (List Char)) :
    ∀ kind buf inConflict, inConflict = decide (kind ≠ SectionKind.normal) →
      noNormalBeforeTheirs (parseLinesTrim lines kind buf inConflict) = true
        ∧ ∀ sec rest, parseLinesTrim lines kind buf inConflict = sec :: rest →
            sec.kind = SectionKind.theirs → kind = SectionKind.theirs := by
  induction lines with
  | nil =>
    intro kind buf inC _
    constructor
    · simp only [parseLinesTrim]
      split <;> rfl
    · intro sec rest h ht
      simp only [parseLinesTrim] at h
      split at h
      · exact absurd h (by simp)
      · cases h
        exact ht
  | cons line rest ih =>
    intro kind buf inC hc
    simp only [parseLinesTrim]
    by_cases h1 : prefixMatch oursMarker line = true
    · simp only [h1, if_true]
      have ihh := ih SectionKind.ours [] true (by decide)
      constructor
      · by_cases hb : (trimChars buf).isEmpty = true
        · simp only [hb, if_true, List.nil_append]
          exact ihh.1
        · rw [Bool.not_eq_true] at hb
          simp only [hb, Bool.false_eq_true, if_false, List.singleton_append]
          exact noNormalBeforeTheirs_cons _ _ ihh.1
            (fun b r hbr hbt => absurd (ihh.2 b r hbr hbt) (by decide))
      · intro sec rest' hout ht
        by_cases hb : (trimChars buf).isEmpty = true
        · simp only [hb, if_true, List.nil_append] at hout
          exact absurd (ihh.2 sec rest' hout ht) (by decide)
        · rw [Bool.not_eq_true] at hb
          simp only [hb, Bool.false_eq_true, if_false, List.singleton_append] at hout
          cases hout
          exact ht
    · rw [Bool.not_eq_true] at h1
      simp only [h1, Bool.false_eq_true, if_false]
      by_cases h2 : (prefixMatch sepMarker line && inC) = true
      · simp only [h2, if_true]
        have hkind : kind ≠ SectionKind.normal := by
          have h2' : inC = true := ((Bool.and_eq_true _ _).mp h2).2
          rw [h2'] at hc
          exact of_decide_eq_true hc.symm
        have ihh := ih SectionKind.theirs [] true (by decide)
        constructor
        · exact noNormalBeforeTheirs_cons _ _ ihh.1 (fun _ _ _ _ => hkind)
        · intro sec rest' hout ht
          cases hout
          exact ht
      · rw [Bool.not_eq_true] at h2
        simp only [h2, Bool.false_eq_true, if_false]
        by_cases h3 : (prefixMatch closeMarker line && inC) = true
        · simp only [h3, if_true]
          have ihh := ih SectionKind.normal [] false (by decide)
          constructor
          · exact noNormalBeforeTheirs_cons _ _ ihh.1
              (fun b r hbr hbt => absurd (ihh.2 b r hbr hbt) (by decide))
          · intro sec rest' hout ht
            cases hout
            exact ht
        · rw [Bool.not_eq_true] at h3
          simp only [h3, Bool.false_eq_true, if_false]
          exact ih kind (buf ++ line ++ ['\n']) inC hc

/-- The same state invariant for the `resolver.go` parser revision. -/
theorem parseLinesRaw_ordering (lines : List (List Char)) :
    ∀ kind buf inConflict, inConflict = decide (kind ≠ SectionKind.normal) →
      noNormalBeforeTheirs (parseLinesRaw lines kind buf inConflict) = true
        ∧ ∀ sec rest, parseLinesRaw lines kind buf inConflict = sec :: rest →
            sec.kind = SectionKind.theirs → kind = SectionKind.theirs := by
  induction lines with
  | nil =>
    intro kind buf inC _
    constructor
    · simp only [parseLinesRaw]
      split <;> rfl
    · intro sec rest h ht
      simp only [parseLinesRaw] at h
      split at h
      · exact absurd h (by simp)
      · cases h
        exact ht
  | cons line rest ih =>
    intro kind buf inC hc
    simp only [parseLinesRaw]
    by_cases h1 : prefixMatch oursMarker line = true
    · simp only [h1, if_true]
      have ihh := ih SectionKind.ours [] true (by decide)
      constructor
      · by_cases hb : buf.isEmpty = true
        · simp only [hb, if_true, List.nil_append]
          exact ihh.1
        · rw [Bool.not_eq_true] at hb
          simp only [hb, Bool.false_eq_true, if_false, List.singleton_append]
          exact noNormalBeforeTheirs_cons _ _ ihh.1
            (fun b r hbr hbt => absurd (ihh.2 b r hbr hbt) (by decide))
      · intro sec rest' hout ht
        by_cases hb : buf.isEmpty = true
        · simp only [hb, if_true, List.nil_append] at hout
          exact absurd (ihh.2 sec rest' hout ht) (by decide)
        · rw [Bool.not_eq_true] at hb
          simp only [hb, Bool.false_eq_true, if_false, List.singleton_append] at hout
          cases hout
          exact ht
    · rw [Bool.not_eq_true] at h1
      simp only [h1, Bool.false_eq_true, if_false]
      by_cases h2 : (prefixMatch sepMarker line && inC) = true
      · simp only [h2, if_true]
        have hkind : kind ≠ SectionKind.normal := by
          have h2' : inC = true := ((Bool.and_eq_true _ _).mp h2).2
          rw [h2'] at hc
          exact of_decide_eq_true hc.symm
        have ihh := ih SectionKind.theirs [] true (by decide)
        constructor
        · exact noNormalBeforeTheirs_cons _ _ ihh.1 (fun _ _ _ _ => hkind)
        · intro sec rest' hout ht
          cases hout
          exact ht
      · rw [Bool.not_eq_true] at h2
        simp only [h2, Bool.false_eq_true, if_false]
        by_cases h3 : (prefixMatch closeMarker line && inC) = true
        · simp only [h3, if_true]
          have ihh := ih SectionKind.normal [] false (by decide)
          constructor
          · exact noNormalBeforeTheirs_cons _ _ ihh.1
              (fun b r hbr hbt => absurd (ihh.2 b r hbr hbt) (by decide))
          · intro sec rest' hout ht
            cases hout
            exact ht
        · rw [Bool.not_eq_true] at h3
          simp only [h3, Bool.false_eq_true, if_false]
          exact ih kind (buf ++ line ++ ['\n']) inC hc

/-- C8: for every input string, no `theirs` section in the parser output is
immediately preceded by a `normal` section — in both `parseConflict`
revisions. -/
theorem parseConflict_no_normal_before_theirs (s : String) :
    noNormalBeforeTheirs (parseConflict s) = true
      ∧ noNormalBeforeTheirs (parseConflictRaw s) = true :=
  ⟨(parseLinesTrim_ordering (splitLines s.data) SectionKind.normal [] false (by decide)).1,
   (parseLinesRaw_ordering (splitLines s.data) SectionKind.normal [] false (by decide)).1⟩

/-! ## N independent conflict blocks (C7) -/

/-- The buffer content accumulated by appending each line plus a newline. -/
def joinNL (ls : List (List Char)) : List Char :=
  (ls.map (fun l => l ++ ['\n'])).flatten

/-- A line that triggers none of the three marker transitions. -/
def plainLine (l : List Char) : Bool :=
  !prefixMatch oursMarker l && !prefixMatch sepMarker l && !prefixMatch closeMarker l

/-- The line decomposition of one well-formed conflict block. -/
structure BlockLines where
  openL : List Char
  ourLs : List (List Char)
  sepL : List Char
  theirLs : List (List Char)
  closeL : List Char

/-- A well-formed conflict block: marker lines carry the respective marker
prefix (trailing annotation text allowed) and the two content runs contain no
marker-prefixed line. -/
def wfBlock (b : BlockLines) : Prop :=
  prefixMatch oursMarker b.openL = true
    ∧ prefixMatch sepMarker b.sepL = true
    ∧ prefixMatch closeMarker b.closeL = true
    ∧ (∀ l ∈ b.ourLs, plainLine l = true)
    ∧ (∀ l ∈ b.theirLs, plainLine l = true)

instance (b : BlockLines) : Decidable (wfBlock b) := by
  unfold wfBlock
  infer_instance

/-- A normal-text segment: a non-empty run of non-marker lines. -/
def wfSeg (ns : List (List Char)) : Prop :=
  ns ≠ [] ∧ (∀ l ∈ ns, plainLine l = true)

/-- A normal-text segment whose text survives whitespace trimming. -/
def wfSegNonWS (ns : List (List Char)) : Prop :=
  wfSeg ns ∧ (trimChars (joinNL ns)).isEmpty = false

instance (ns : List (List Char)) : Decidable (wfSeg ns) := by
  unfold wfSeg
  infer_instance

instance (ns : List (List Char)) : Decidable (wfSegNonWS ns) := by
  unfold wfSegNonWS
  infer_instance

/-- The lines of one block, in file order. -/
def blockLineList (b : BlockLines) : List (List Char) :=
  b.openL :: (b.ourLs ++ b.sepL :: (b.theirLs ++ [b.closeL]))

/-- Leading normal segment, then alternately one block and one normal
segment. -/
def buildLines (n0 : List (List Char)) (ps : List (BlockLines × List (List Char))) :
    List (List Char) :=
  n0 ++ (ps.map (fun p => blockLineList p.1 ++ p.2)).flatten

/-- Expected parse: for each block one `normal` section carrying the text
accumulated before its open marker, its `ours` run and its `theirs` run, and
one trailing `normal` section. -/
def expectedSections : List (BlockLines × List (List Char)) → List Char → List ConflictSection
  | [], buf => [⟨.normal, buf⟩]
  | (b, ns) :: rest, buf =>
    ⟨.normal, buf⟩ :: ⟨.ours, joinNL b.ourLs⟩ :: ⟨.theirs, joinNL b.theirLs⟩ ::
      expectedSections rest (joinNL ns)

/-- The kind pattern the spec demands for N blocks. -/
def kindPattern (n : Nat) : List SectionKind :=
  (List.replicate n [SectionKind.normal, SectionKind.ours, SectionKind.theirs]).flatten
    ++ [SectionKind.normal]

theorem sepMarker_cons : sepMarker = '=' :: "======".data := rfl

theorem closeMarker_cons : closeMarker = '>' :: ">>>>>>".data := rfl

theorem prefixMatch_head {p : Char} {ps l : List Char}
    (h : prefixMatch (p :: ps) l = true) : ∃ cs, l = p :: cs := by
  cases l with
  | nil => exact absurd h (by simp [prefixMatch])
  | cons c cs =>
    have h' : (p == c && prefixMatch ps cs) = true := h
    have hpc : p = c := eq_of_beq ((Bool.and_eq_true _ _).mp h').1
    exact ⟨cs, by rw [hpc]⟩

theorem prefixMatch_cons_neq {p c : Char} (ps cs : List Char) (h : (p == c) = false) :
    prefixMatch (p :: ps) (c :: cs) = false := by
  show (p == c && prefixMatch ps cs) = false
  rw [h, Bool.false_and]

theorem sep_not_ours {l : List Char} (h : prefixMatch sepMarker l = true) :
    prefixMatch oursMarker l = false := by
  rw [sepMarker_cons] at h
  obtain ⟨cs, rfl⟩ := prefixMatch_head h
  exact prefixMatch_cons_neq _ _ rfl

theorem close_not_ours {l : List Char} (h : prefixMatch closeMarker l = true) :
    prefixMatch oursMarker l = false := by
  rw [closeMarker_cons] at h
  obtain ⟨cs, rfl⟩ := prefixMatch_head h
  exact prefixMatch_cons_neq _ _ rfl

theorem close_not_sep {l : List Char} (h : prefixMatch closeMarker l = true) :
    prefixMatch sepMarker l = false := by
  rw [closeMarker_cons] at h
  obtain ⟨cs, rfl⟩ := prefixMatch_head h
  exact prefixMatch_cons_neq _ _ rfl

theorem parseLinesTrim_open (line : List Char) (rest : List (List Char))
    (kind : SectionKind) (buf : List Char) (inC : Bool)
    (h : prefixMatch oursMarker line = true) :
    parseLinesTrim (line :: rest) kind buf inC
      = (if (trimChars buf).isEmpty then [] else [⟨kind, buf⟩])
          ++ parseLinesTrim rest .ours [] true := by
  rw [parseLinesTrim, if_pos h]

theorem parseLinesTrim_sep (line : List Char) (rest : List (List Char))
    (kind : SectionKind) (buf : List Char) (h : prefixMatch sepMarker line = true) :
    parseLinesTrim (line :: rest) kind buf true
      = ⟨kind, buf⟩ :: parseLinesTrim rest .theirs [] true := by
  rw [parseLinesTrim, sep_not_ours h, h]
  simp

theorem parseLinesTrim_close (line : List Char) (rest : List (List Char))
    (kind : SectionKind) (buf : List Char) (h : prefixMatch closeMarker line = true) :
    parseLinesTrim (line :: rest) kind buf true
      = ⟨kind, buf⟩ :: parseLinesTrim rest .normal [] false := by
  rw [parseLinesTrim, close_not_ours h, close_not_sep h, h]
  simp

/-- Non-marker lines are swallowed into the pending buffer. -/
theorem parseLinesTrim_plain (ns : List (List Char)) :
    ∀ rest kind buf inConflict, (∀ l ∈ ns, plainLine l = true) →
      parseLinesTrim (ns ++ rest) kind buf inConflict
        = parseLinesTrim rest kind (buf ++ joinNL ns) inConflict := by
  induction ns with
  | nil =>
    intro rest kind buf inC _
    simp [joinNL]
  | cons l ls ih =>
    intro rest kind buf inC hp
    have hl := hp l (List.mem_cons_self _ _)
    simp only [plainLine, Bool.and_eq_true, Bool.not_eq_true'] at hl
    obtain ⟨⟨h1, h2⟩, h3⟩ := hl
    simp only [List.cons_append, parseLinesTrim, h1, h2, h3, Bool.false_eq_true, if_false,
      Bool.false_and, List.append_eq]
    rw [ih rest kind (buf ++ l ++ ['\n']) inC (fun x hx => hp x (List.mem_cons_of_mem _ hx))]
    have : buf ++ l ++ ['\n'] ++ joinNL ls = buf ++ joinNL (l :: ls) := by
      simp [joinNL, List.append_assoc]
    rw [this]

/-- Running the trim-flushing parser over well-formed blocks alternated with
non-whitespace normal segments, starting on a pending normal buffer that
survives trimming, yields exactly the expected sections. -/
theorem parseLinesTrim_blocks (ps : List (BlockLines × List (List Char))) :
    ∀ buf, (∀ p ∈ ps, wfBlock p.1 ∧ wfSegNonWS p.2) →
      (trimChars buf).isEmpty = false →
      parseLinesTrim ((ps.map (fun p => blockLineList p.1 ++ p.2)).flatten)
          SectionKind.normal buf false
        = expectedSections ps buf := by
  induction ps with
  | nil =>
    intro buf _ hbuf
    simp [parseLinesTrim, expectedSections, hbuf]
  | cons p rest ih =>
    intro buf hwf hbuf
    obtain ⟨b, ns⟩ := p
    obtain ⟨⟨hopen, hsep, hclose, hours, htheirs⟩, hseg⟩ :=
      hwf (b, ns) (List.mem_cons_self _ _)
    have hwf' : ∀ q ∈ rest, wfBlock q.1 ∧ wfSegNonWS q.2 :=
      fun q hq => hwf q (List.mem_cons_of_mem _ hq)
    have hshape : ((((b, ns) :: rest).map (fun p => blockLineList p.1 ++ p.2)).flatten)
        = b.openL :: (b.ourLs ++ (b.sepL :: (b.theirLs ++ (b.closeL :: (ns ++
            ((rest.map (fun p => blockLineList p.1 ++ p.2)).flatten)))))) := by
      simp [blockLineList, List.append_assoc]
    rw [hshape, parseLinesTrim_open _ _ _ _ _ hopen, hbuf]
    simp only [Bool.false_eq_true, if_false, List.singleton_append]
    rw [parseLinesTrim_plain b.ourLs _ _ _ _ hours]
    simp only [List.nil_append]
    rw [parseLinesTrim_sep _ _ _ _ hsep]
    rw [parseLinesTrim_plain b.theirLs _ _ _ _ htheirs]
    simp only [List.nil_append]
    rw [parseLinesTrim_close _ _ _ _ hclose]
    rw [parseLinesTrim_plain ns _ _ _ _ hseg.1.2]
    simp only [List.nil_append]
    rw [ih (joinNL ns) hwf' hseg.2]
    rfl

theorem expectedSections_kinds (ps : List (BlockLines × List (List Char))) :
    ∀ buf, (expectedSections ps buf).map ConflictSection.kind = kindPattern ps.length := by
  induction ps with
  | nil => intro buf; rfl
  | cons p rest ih =>
    intro buf
    obtain ⟨b, ns⟩ := p
    simp only [expectedSections, List.map_cons, ih, kindPattern, List.length_cons,
      List.replicate_succ, List.flatten_cons, List.cons_append, List.append_assoc,
      List.nil_append]

theorem kindPattern_length (n : Nat) : (kindPattern n).length = 3 * n + 1 := by
  induction n with
  | zero => rfl
  | succ k ih =>
    have hstep : kindPattern (k + 1)
        = [SectionKind.normal, SectionKind.ours, SectionKind.theirs] ++ kindPattern k := by
      simp [kindPattern, List.replicate_succ, List.append_assoc]
    rw [hstep, List.length_append, ih]
    simp
    omega

/-- C7 (amended): parsing an input whose line decomposition is N ≥ 1
well-formed conflict blocks separated (before, between and after) by normal
segments each containing a non-whitespace character yields exactly 3N+1
sections in the pattern normal, ours, theirs repeated N times followed by a
trailing normal. -/
theorem parseConflict_n_blocks (s : String) (n : Nat)
    (n0 : List (List Char)) (ps : List (BlockLines × List (List Char)))
    (_hn : 1 ≤ n) (hlen : ps.length = n)
    (hsplit : splitLines s.data = buildLines n0 ps)
    (h0 : wfSegNonWS n0)
    (hps : ∀ p ∈ ps, wfBlock p.1 ∧ wfSegNonWS p.2) :
    (parseConflict s).map ConflictSection.kind = kindPattern n
      ∧ (parseConflict s).length = 3 * n + 1 := by
  have hparse : parseConflict s = expectedSections ps (joinNL n0) := by
    rw [parseConflict, hsplit, buildLines,
      parseLinesTrim_plain n0 _ _ _ _ h0.1.2, List.nil_append]
    exact parseLinesTrim_blocks ps (joinNL n0) hps h0.2
  have hkinds : (parseConflict s).map ConflictSection.kind = kindPattern n := by
    rw [hparse, expectedSections_kinds, hlen]
  refine ⟨hkinds, ?_⟩
  have := congrArg List.length hkinds
  rwa [List.length_map, kindPattern_length] at this

/-- Concrete one-block input for the C7 witness. -/
def oneBlockInput : String := "a\n<<<<<<< HEAD\nb\n=======\nc\n>>>>>>> br\nd"

/-- Its leading normal segment. -/
def oneBlockLead : List (List Char) := [['a']]

/-- Its single block and trailing normal segment. -/
def oneBlockPs : List (BlockLines × List (List Char)) :=
  [(⟨"<<<<<<< HEAD".data, [['b']], "=======".data, [['c']], ">>>>>>> br".data⟩, [['d']])]

/-- Witness for C7 (amended) at a one-block input. -/
theorem parseConflict_n_blocks_witness :
    (parseConflict oneBlockInput).map ConflictSection.kind = kindPattern 1
      ∧ (parseConflict oneBlockInput).length = 3 * 1 + 1 :=
  parseConflict_n_blocks oneBlockInput 1 oneBlockLead oneBlockPs
    (by decide) (by decide) (by decide) (by decide) (by decide)

/-- One well-formed block whose surrounding normal text is a single space. -/
def wsBlockInput : String := " \n<<<<<<< HEAD\nx\n=======\ny\n>>>>>>> b\n "

/-- The block of `wsBlockInput`. -/
def wsBlock : BlockLines :=
  ⟨"<<<<<<< HEAD".data, [['x']], "=======".data, [['y']], ">>>>>>> b".data⟩

/-- C7 counterexample: `wsBlockInput` consists of N = 1 well-formed conflict
block separated by non-empty normal text (a single space before and after),
yet the current `parseConflict` returns 2 sections, not 3·1+1 = 4: the
trim-flushing parser drops whitespace-only normal segments. -/
theorem parseConflict_n_blocks_cex :
    splitLines wsBlockInput.data = buildLines [[' ']] [(wsBlock, [[' ']])]
      ∧ wfBlock wsBlock
      ∧ wfSeg [[' ']] ∧ joinNL [[' ']] ≠ []
      ∧ (parseConflict wsBlockInput).length = 2 := by
  decide

/-! ## Git repository adapter (`internal/git/repository.go`)

External `git` invocations are modelled by an oracle mapping an argument
vector to the observed result.  Each embedded operation returns its Go result
paired with the exact sequence of argument vectors it handed to the external
tool, in order. -/

/-- A `git` invocation, identified by its argument vector (after `git`). -/
abbrev GitCmd := List String

/-- The observed outcome of one external invocation: exit success, captured
standard output and standard error, and the string the returned Go error
renders to (for a process failure this is the `exec` error text, with the
underlying tool diagnostics visible through it where the code relies on
that). `stdout` is the output collected even when the command failed, as
`cmd.Output()` hands back partial output alongside the error. -/
structure CmdResult where
  ok : Bool
  stdout : String
  stderr : String
  errString : String

/-- The external-tool oracle. -/
abbrev Oracle := GitCmd → CmdResult

/-- One file in conflict (`git.Conflict`). -/
structure Conflict where
  file : String
  content : String
deriving DecidableEq, Repr

/-- The character class of the validation regexp
`[;&|$(){}[\]<>'"\\]`. -/
def dangerousChars : List Char :=
  [';', '&', '|', '$', '(', ')', '\x7b', '\x7d', '[', ']', '<', '>', '\'', '\"', '\\']

/-- `strings.HasSuffix` on character lists (needle first). -/
def suffixMatch (p l : List Char) : Bool := prefixMatch p.reverse l.reverse

/-- `validateBranchName` from `internal/git/repository.go`. -/
def validateBranchName (branch : String) : Except String Unit :=
  if branch = "" then
    .error "branch name cannot be empty"
  else if branch.data.any (fun c => dangerousChars.contains c) then
    .error ("branch name contains invalid characters: " ++ branch)
  else if prefixMatch ['/'] branch.data || suffixMatch ['/'] branch.data then
    .error ("branch name cannot start or end with /: " ++ branch)
  else if listContains ['.', '.'] branch.data then
    .error ("branch name cannot contain ..: " ++ branch)
  else
    .ok ()

def fetchAllCmd : GitCmd := ["fetch", "--all"]

def currentBranchCmd : GitCmd := ["rev-parse", "--abbrev-ref", "HEAD"]

def revParseCmd (ref : String) : GitCmd := ["rev-parse", ref]

def mergeTreeCmd (cur tgt : String) : GitCmd :=
  ["merge-tree", "--write-tree", "--name-only", cur, tgt]

def mergeBaseCmd (target : String) : GitCmd := ["merge-base", "HEAD", target]

def diffNameOnlyCmd (a b : String) : GitCmd := ["diff", "--name-only", a, b]

def showCmd (ref file : String) : GitCmd := ["show", ref ++ ":" ++ file]

def revListCountCmd (range : String) : GitCmd := ["rev-list", "--count", range]

def configRemoteCmd (branch : String) : GitCmd :=
  ["config", "branch." ++ branch ++ ".remote"]

def statusCmd : GitCmd := ["status", "--porcelain"]

def pullCmd : GitCmd := ["pull"]

/-- `Repository.GetCurrentBranch`. -/
def GetCurrentBranch (g : Oracle) : Except String String × List GitCmd :=
  let r := g currentBranchCmd
  (if r.ok then .ok (trimSpace r.stdout)
   else .error ("failed to get current branch: " ++ r.errString),
   [currentBranchCmd])

/-- `Repository.Fetch`. -/
def Fetch (g : Oracle) : Except String Unit × List GitCmd :=
  let r := g fetchAllCmd
  (if r.ok then .ok () else .error ("failed to fetch: " ++ r.errString),
   [fetchAllCmd])

/-- `Repository.GetRemoteCommit`. -/
def GetRemoteCommit (g : Oracle) (branch : String) :
    Except String String × List GitCmd :=
  match validateBranchName branch with
  | .error e => (.error ("invalid branch name: " ++ e), [])
  | .ok _ =>
    let r := g (revParseCmd ("origin/" ++ branch))
    (if r.ok then .ok (trimSpace r.stdout)
     else .error ("failed to get remote commit: " ++ r.errString),
     [revParseCmd ("origin/" ++ branch)])

/-- `Repository.GetLocalCommit`. -/
def GetLocalCommit (g : Oracle) (branch : String) :
    Except String String × List GitCmd :=
  match validateBranchName branch with
  | .error e => (.error ("invalid branch name: " ++ e), [])
  | .ok _ =>
    let r := g (revParseCmd branch)
    (if r.ok then .ok (trimSpace r.stdout)
     else .error ("failed to get local commit: " ++ r.errString),
     [revParseCmd branch])

/-- `strings.Fields`: split at runs of white space, no empty fields. -/
def fieldsAux : List Char → List Char → List (List Char)
  | [], [] => []
  | [], acc => [acc.reverse]
  | c :: rest, acc =>
    if isSpaceChar c then
      if acc.isEmpty then fieldsAux rest [] else acc.reverse :: fieldsAux rest []
    else
      fieldsAux rest (c :: acc)

/-- The field following the first `"in"` field that has a successor
(the inner loop of `parseConflictsFromMergeTree`). -/
def fieldAfterIn : List String → Option String
  | [] => none
  | [_] => none
  | x :: next :: rest =>
    if x = "in" then some next else fieldAfterIn (next :: rest)

/-- `Repository.parseConflictsFromMergeTree` (always returns a nil error). -/
def parseConflictsFromMergeTree (output : String) : List Conflict :=
  (splitLines output.data).filterMap (fun line =>
    if listContains "CONFLICT".data line then
      match fieldAfterIn ((fieldsAux line []).map (fun w => (⟨w⟩ : String))) with
      | some filename => some ⟨filename, ⟨line⟩⟩
      | none => none
    else none)

/-- `Repository.checkConflictsWithDiff`: the diff-based fallback for older
git versions. Per-candidate `git show` errors are ignored and the collected
(possibly empty) output used, as in the source. -/
def checkConflictsWithDiff (g : Oracle) (targetBranch : String) :
    Except String (List Conflict) × List GitCmd :=
  let rBase := g (mergeBaseCmd targetBranch)
  if !rBase.ok then
    (.error ("failed to get merge base: " ++ rBase.errString),
     [mergeBaseCmd targetBranch])
  else
    let mergeBaseStr := trimSpace rBase.stdout
    let rOur := g (diffNameOnlyCmd mergeBaseStr "HEAD")
    if !rOur.ok then
      (.error ("failed to get our changed files: " ++ rOur.errString),
       [mergeBaseCmd targetBranch, diffNameOnlyCmd mergeBaseStr "HEAD"])
    else
      let rTheir := g (diffNameOnlyCmd mergeBaseStr targetBranch)
      if !rTheir.ok then
        (.error ("failed to get their changed files: " ++ rTheir.errString),
         [mergeBaseCmd targetBranch, diffNameOnlyCmd mergeBaseStr "HEAD",
          diffNameOnlyCmd mergeBaseStr targetBranch])
      else
        let ourSet := ((splitLines rOur.stdout.data).map
          (fun l => (⟨l⟩ : String))).filter (fun f => !(f == ""))
        let potentialConflicts := ((splitLines rTheir.stdout.data).map
          (fun l => (⟨l⟩ : String))).filter
          (fun f => !(f == "") && ourSet.contains f)
        let conflicts := potentialConflicts.filterMap (fun file =>
          let baseContent := (g (showCmd mergeBaseStr file)).stdout
          let ourContent := (g (showCmd "HEAD" file)).stdout
          let theirContent := (g (showCmd targetBranch file)).stdout
          if !(ourContent == theirContent)
              && (!(ourContent == baseContent) && !(theirContent == baseContent)) then
            some ⟨file, "Potential conflict in " ++ file ++ "\n"⟩
          else none)
        (.ok conflicts,
         [mergeBaseCmd targetBranch, diffNameOnlyCmd mergeBaseStr "HEAD",
          diffNameOnlyCmd mergeBaseStr targetBranch]
           ++ (potentialConflicts.map (fun file =>
             [showCmd mergeBaseStr file, showCmd "HEAD" file,
              showCmd targetBranch file])).flatten)

/-- `Repository.CheckForConflicts`: the merge simulator. A nil conflict
list is modelled as `.ok []`. -/
def CheckForConflicts (g : Oracle) (targetBranch : String) :
    Except String (List Conflict) × List GitCmd :=
  match validateBranchName targetBranch with
  | .error e => (.error ("invalid target branch name: " ++ e), [])
  | .ok _ =>
    match GetCurrentBranch g with
    | (.error e, t1) => (.error ("failed to get current branch: " ++ e), t1)
    | (.ok currentBranch, t1) =>
      let r := g (mergeTreeCmd currentBranch targetBranch)
      let trace := t1 ++ [mergeTreeCmd currentBranch targetBranch]
      if !r.ok then
        if strContains r.stderr "unknown option" || strContains r.stderr "usage:" then
          let fallback := checkConflictsWithDiff g targetBranch
          (fallback.1, trace ++ fallback.2)
        else if strContains r.stdout "CONFLICT" then
          (.ok (parseConflictsFromMergeTree r.stdout), trace)
        else
          (.error ("merge-tree failed: " ++ r.errString), trace)
      else
        if strContains r.stdout "CONFLICT" then
          (.ok (parseConflictsFromMergeTree r.stdout), trace)
        else
          (.ok [], trace)

/-- `Repository.IsInSync`. -/
def IsInSync (g : Oracle) (branch : String) : Except String Bool × List GitCmd :=
  match validateBranchName branch with
  | .error e => (.error ("invalid branch name: " ++ e), [])
  | .ok _ =>
    match Fetch g with
    | (.error e, t0) => (.error ("failed to fetch: " ++ e), t0)
    | (.ok _, t0) =>
      match GetLocalCommit g branch with
      | (.error e, t1) => (.error e, t0 ++ t1)
      | (.ok localCommit, t1) =>
        match GetRemoteCommit g branch with
        | (.error e, t2) =>
          if strContains e "unknown revision" then (.ok true, t0 ++ t1 ++ t2)
          else (.error e, t0 ++ t1 ++ t2)
        | (.ok remoteCommit, t2) =>
          (.ok (localCommit == remoteCommit), t0 ++ t1 ++ t2)

/-- Digit-string value for the `strconv.Atoi` model. -/
def digitsVal (ds : List Char) : Nat :=
  ds.foldl (fun a c => a * 10 + (c.toNat - 48)) 0

/-- Model of `count, _ = strconv.Atoi(s)` with the error ignored: the parsed
value for a (possibly negated) digit string and `0` otherwise. -/
def atoiOrZero (s : String) : Int :=
  match s.data with
  | [] => 0
  | '-' :: ds =>
    if !ds.isEmpty && ds.all (fun c => c.isDigit) then -(digitsVal ds : Int) else 0
  | ds =>
    if ds.all (fun c => c.isDigit) then (digitsVal ds : Int) else 0

/-- `Repository.IsBehindRemote`, returning the `(bool, int)` pair. -/
def IsBehindRemote (g : Oracle) (branch : String) :
    Except String (Bool × Int) × List GitCmd :=
  match validateBranchName branch with
  | .error e => (.error ("invalid branch name: " ++ e), [])
  | .ok _ =>
    let cmd := revListCountCmd (branch ++ "..origin/" ++ branch)
    let r := g cmd
    if !r.ok then
      if strContains r.errString "unknown revision" then (.ok (false, 0), [cmd])
      else (.error ("failed to check if behind remote: " ++ r.errString), [cmd])
    else
      let countStr := trimSpace r.stdout
      let count : Int := if countStr = "" then 0 else atoiOrZero countStr
      (.ok (decide (0 < count), count), [cmd])

/-- `Repository.IsAheadOfRemote`, returning the `(bool, int)` pair. -/
def IsAheadOfRemote (g : Oracle) (branch : String) :
    Except String (Bool × Int) × List GitCmd :=
  match validateBranchName branch with
  | .error e => (.error ("invalid branch name: " ++ e), [])
  | .ok _ =>
    let cmd := revListCountCmd ("origin/" ++ branch ++ ".." ++ branch)
    let r := g cmd
    if !r.ok then
      if strContains r.errString "unknown revision" then (.ok (false, 0), [cmd])
      else (.error ("failed to check if ahead of remote: " ++ r.errString), [cmd])
    else
      let countStr := trimSpace r.stdout
      let count : Int := if countStr = "" then 0 else atoiOrZero countStr
      (.ok (decide (0 < count), count), [cmd])

/-- `Repository.GetRemoteName` (defaults to `origin` when the config query
fails, but still validates first). -/
def GetRemoteName (g : Oracle) (branch : String) :
    Except String String × List GitCmd :=
  match validateBranchName branch with
  | .error e => (.error ("invalid branch name: " ++ e), [])
  | .ok _ =>
    let r := g (configRemoteCmd branch)
    (if r.ok then .ok (trimSpace r.stdout) else .ok "origin",
     [configRemoteCmd branch])

/-- `Repository.HasUncommittedChanges`. -/
def HasUncommittedChanges (g : Oracle) : Except String Bool × List GitCmd :=
  let r := g statusCmd
  (if r.ok then .ok (decide (0 < (trimSpace r.stdout).length))
   else .error ("failed to check status: " ++ r.errString),
   [statusCmd])

/-- `Repository.Pull`. -/
def Pull (g : Oracle) : Except String Unit × List GitCmd :=
  match HasUncommittedChanges g with
  | (.error e, t) => (.error e, t)
  | (.ok hasChanges, t) =>
    if hasChanges then
      (.error "cannot pull: uncommitted changes in working directory", t)
    else
      let r := g pullCmd
      (if r.ok then .ok ()
       else .error ("failed to pull: " ++ r.errString ++ " - " ++ r.stderr),
       t ++ [pullCmd])

/-- The rejection condition claimed for branch names: empty, containing a
shell-metacharacter-like character, starting or ending with a slash, or
containing two consecutive dots. -/
def badBranchName (b : String) : Bool :=
  b == "" || b.data.any (fun c => dangerousChars.contains c)
    || prefixMatch ['/'] b.data || suffixMatch ['/'] b.data
    || listContains ['.', '.'] b.data

/-- C2: every branch name matching the rejection condition is rejected by
`validateBranchName`, and every branch-taking repository operation returns an
error for it with an empty command trace — no external invocation happens. -/
theorem validateBranchName_rejects (g : Oracle) (b : String)
    (h : badBranchName b = true) :
    (∃ e, validateBranchName b = .error e)
      ∧ (∃ e, CheckForConflicts g b = (.error e, []))
      ∧ (∃ e, GetRemoteCommit g b = (.error e, []))
      ∧ (∃ e, GetLocalCommit g b = (.error e, []))
      ∧ (∃ e, IsInSync g b = (.error e, []))
      ∧ (∃ e, IsAheadOfRemote g b = (.error e, []))
      ∧ (∃ e, IsBehindRemote g b = (.error e, []))
      ∧ (∃ e, GetRemoteName g b = (.error e, [])) := by
  have hv : ∃ e, validateBranchName b = .error e := by
    unfold validateBranchName
    by_cases h1 : b = ""
    · rw [if_pos h1]
      exact ⟨_, rfl⟩
    · rw [if_neg h1]
      by_cases h2 : b.data.any (fun c => dangerousChars.contains c) = true
      · rw [if_pos h2]
        exact ⟨_, rfl⟩
      · rw [if_neg h2]
        by_cases h3 : (prefixMatch ['/'] b.data || suffixMatch ['/'] b.data) = true
        · rw [if_pos h3]
          exact ⟨_, rfl⟩
        · rw [if_neg h3]
          by_cases h4 : listContains ['.', '.'] b.data = true
          · rw [if_pos h4]
            exact ⟨_, rfl⟩
          · exfalso
            simp only [badBranchName, Bool.or_eq_true] at h
            rcases h with ((((hb | hb) | hb) | hb) | hb)
            · exact h1 (by simpa using hb)
            · exact h2 hb
            · exact h3 (by simp [hb])
            · exact h3 (by simp [hb])
            · exact h4 hb
  obtain ⟨e, he⟩ := hv
  refine ⟨⟨e, he⟩, ⟨"invalid target branch name: " ++ e, ?_⟩,
    ⟨"invalid branch name: " ++ e, ?_⟩, ⟨"invalid branch name: " ++ e, ?_⟩,
    ⟨"invalid branch name: " ++ e, ?_⟩, ⟨"invalid branch name: " ++ e, ?_⟩,
    ⟨"invalid branch name: " ++ e, ?_⟩, ⟨"invalid branch name: " ++ e, ?_⟩⟩
  · simp only [CheckForConflicts, he]
  · simp only [GetRemoteCommit, he]
  · simp only [GetLocalCommit, he]
  · simp only [IsInSync, he]
  · simp only [IsAheadOfRemote, he]
  · simp only [IsBehindRemote, he]
  · simp only [GetRemoteName, he]

/-- An oracle that reports success on every invocation. -/
def allOkOracle : Oracle := fun _ => ⟨true, "", "", ""⟩

/-- Witness for C2 at the injection-shaped name `feature;rm -rf`. -/
theorem validateBranchName_rejects_witness :
    badBranchName "feature;rm -rf" = true
      ∧ (∃ e, CheckForConflicts allOkOracle "feature;rm -rf" = (.error e, [])) :=
  ⟨by decide, (validateBranchName_rejects allOkOracle "feature;rm -rf" (by decide)).2.1⟩

theorem listContains_append_left (n x a : List Char)
    (h : listContains n x = true) : listContains n (a ++ x) = true := by
  induction a with
  | nil => exact h
  | cons c cs ih =>
    simp only [List.cons_append, List.append_eq, listContains, ih, Bool.or_true]

/-- C3: for a valid branch name, when the evaluation reaches remote-commit
resolution and that resolution fails with the unknown-revision diagnostic (no
upstream configured), `IsInSync` reports in-sync with no error instead of
propagating the failure. -/
theorem isInSync_no_upstream (g : Oracle) (b : String)
    (hv : validateBranchName b = .ok ())
    (hf : (g fetchAllCmd).ok = true)
    (hl : (g (revParseCmd b)).ok = true)
    (hr : (g (revParseCmd ("origin/" ++ b))).ok = false)
    (hu : strContains (g (revParseCmd ("origin/" ++ b))).errString
      "unknown revision" = true) :
    (IsInSync g b).1 = .ok true := by
  have hcontains : strContains
      ("failed to get remote commit: " ++ (g (revParseCmd ("origin/" ++ b))).errString)
      "unknown revision" = true := by
    unfold strContains
    rw [String.data_append]
    exact listContains_append_left _ _ _ (by exact hu)
  unfold IsInSync
  rw [hv]
  unfold Fetch
  simp only [hf, if_true]
  unfold GetLocalCommit
  rw [hv]
  simp only [hl, if_true]
  unfold GetRemoteCommit
  rw [hv]
  simp only [hr, Bool.false_eq_true, if_false, hcontains, if_true]

/-- An oracle with no upstream for `main`: resolving `origin/main` fails with
the unknown-revision diagnostic, everything else succeeds. -/
def noUpstreamOracle : Oracle := fun c =>
  if c = revParseCmd "origin/main" then
    ⟨false, "", "", "exit status 128: fatal: unknown revision or path not in the working tree"⟩
  else ⟨true, "abc123\n", "", ""⟩

/-- Witness for C3 on `noUpstreamOracle` and branch `main`. -/
theorem isInSync_no_upstream_witness :
    validateBranchName "main" = .ok ()
      ∧ (noUpstreamOracle (revParseCmd "origin/main")).ok = false
      ∧ (IsInSync noUpstreamOracle "main").1 = .ok true :=
  ⟨by rfl, by decide,
   isInSync_no_upstream noUpstreamOracle "main" (by rfl) (by decide) (by decide)
     (by decide) (by decide)⟩

/-! ## Frame property of the merge simulator (C1) -/

/-- The repository's mutable state the frame claim is about: working tree,
index and current branch pointer, each abstracted as an opaque description. -/
structure RepoState where
  workingTree : String
  index : String
  headBranch : String

/-- Modelled from the spec: the VCS command surface (§6) splits into mutating
operations (overwrite a path's working content, stage, pull, merge and the
other history- or tree-changing subcommands) and read-only queries; only the
former may change working tree, index or branch pointer. -/
def mutatesRepo (c : GitCmd) : Bool :=
  match c with
  | [] => false
  | sub :: _ =>
    ["checkout", "add", "pull", "merge", "reset", "commit", "rebase", "stash",
     "rm", "mv", "restore", "switch", "clean", "cherry-pick", "revert",
     "apply", "am"].contains sub

/-- Run a command trace against a state: read-only commands leave the state
unchanged, mutating commands act by an arbitrary interpretation `step`. -/
def runCmds (step : GitCmd → RepoState → RepoState) (s : RepoState)
    (cs : List GitCmd) : RepoState :=
  cs.foldl (fun st c => if mutatesRepo c then step c st else st) s

theorem runCmds_readonly (step : GitCmd → RepoState → RepoState) :
    ∀ (cs : List GitCmd) (s : RepoState),
      (∀ c ∈ cs, mutatesRepo c = false) → runCmds step s cs = s := by
  intro cs
  induction cs with
  | nil => intro s _; rfl
  | cons c cs ih =>
    intro s h
    have hc := h c (List.mem_cons_self _ _)
    have hstep : runCmds step s (c :: cs) = runCmds step s cs := by
      show runCmds step (if mutatesRepo c = true then step c s else s) cs
        = runCmds step s cs
      rw [hc]
      simp
    rw [hstep]
    exact ih s (fun d hd => h d (List.mem_cons_of_mem _ hd))

theorem checkConflictsWithDiff_trace_readonly (g : Oracle) (tgt : String) :
    ∀ c ∈ (checkConflictsWithDiff g tgt).2, mutatesRepo c = false := by
  intro c hc
  simp only [checkConflictsWithDiff] at hc
  split at hc
  · simp only [List.mem_singleton] at hc
    subst hc
    rfl
  · split at hc
    · simp only [List.mem_cons, List.not_mem_nil, or_false] at hc
      rcases hc with hc | hc <;> (subst hc; rfl)
    · split at hc
      · simp only [List.mem_cons, List.not_mem_nil, or_false] at hc
        rcases hc with hc | hc | hc <;> (subst hc; rfl)
      · rw [List.mem_append] at hc
        rcases hc with hc | hc
        · simp only [List.mem_cons, List.not_mem_nil, or_false] at hc
          rcases hc with hc | hc | hc <;> (subst hc; rfl)
        · rw [List.mem_flatten] at hc
          obtain ⟨l, hl, hcl⟩ := hc
          rw [List.mem_map] at hl
          obtain ⟨file, _, rfl⟩ := hl
          simp only [List.mem_cons, List.not_mem_nil, or_false] at hcl
          rcases hcl with h | h | h <;> (subst h; rfl)

theorem checkForConflicts_trace_readonly (g : Oracle) (tgt : String) :
    ∀ c ∈ (CheckForConflicts g tgt).2, mutatesRepo c = false := by
  intro c hc
  simp only [CheckForConflicts] at hc
  cases hval : validateBranchName tgt with
  | error e =>
    rw [hval] at hc
    simp at hc
  | ok u =>
    rw [hval] at hc
    simp only [GetCurrentBranch] at hc
    cases hok : (g currentBranchCmd).ok with
    | false =>
      rw [hok] at hc
      simp only [Bool.false_eq_true, if_false, List.mem_singleton] at hc
      subst hc
      rfl
    | true =>
      rw [hok] at hc
      simp only [if_true] at hc
      split at hc
      · split at hc
        · rw [List.mem_append] at hc
          rcases hc with hc | hc
          · simp only [List.mem_append, List.mem_singleton, List.mem_cons,
              List.not_mem_nil, or_false] at hc
            rcases hc with hc | hc <;> (subst hc; rfl)
          · exact checkConflictsWithDiff_trace_readonly g tgt c hc
        · split at hc <;>
            (simp only [List.mem_append, List.mem_singleton, List.mem_cons,
              List.not_mem_nil, or_false] at hc
             rcases hc with hc | hc <;> (subst hc; rfl))
      · split at hc <;>
          (simp only [List.mem_append, List.mem_singleton, List.mem_cons,
            List.not_mem_nil, or_false] at hc
           rcases hc with hc | hc <;> (subst hc; rfl))

/-- C1: the merge simulator leaves working tree, index and branch pointer
exactly as they were, in every outcome (conflicts, no conflicts, or error,
including the diff-based fallback): every command it issues is read-only, so
any interpretation of the mutating commands fixes the state across the
returned trace. -/
theorem checkForConflicts_frame (g : Oracle) (tgt : String)
    (step : GitCmd → RepoState → RepoState) (s : RepoState) :
    runCmds step s (CheckForConflicts g tgt).2 = s :=
  runCmds_readonly step _ s (checkForConflicts_trace_readonly g tgt)

/-! ## Interactive resolution session (`internal/conflict`, current revision)

Terminal interaction is modelled by a script of input lines; the external
side effects of the per-file actions (checkout of the ours or theirs side,
staging, editor launch) are an action record returning success or an error
text. `none` models the session blocking on input it never receives. -/

/-- External effects available to the resolver. `editorName` is the editor
resolved from the environment or the fixed search list, if any. -/
structure ResolverActions where
  checkoutOurs : String → Except String Unit
  checkoutTheirs : String → Except String Unit
  addFile : String → Except String Unit
  editorName : Option String
  runEditor : String → String → Except String Unit

/-- Terminal per-file results. -/
inductive ResolutionOutcome
  | acceptedOurs
  | acceptedTheirs
  | edited (staged : Bool)
  | skipped
deriving DecidableEq, Repr

/-- ASCII part of `strings.ToLower`. -/
def toLowerChar (c : Char) : Char :=
  if 'A' ≤ c ∧ c ≤ 'Z' then Char.ofNat (c.toNat + 32) else c

/-- `strings.ToLower` on strings (ASCII range). -/
def strToLower (s : String) : String := ⟨s.data.map toLowerChar⟩

/-- `Resolver.acceptOurs`: checkout `--ours` then stage. -/
def acceptOurs (a : ResolverActions) (file : String) :
    Except String ResolutionOutcome :=
  match a.checkoutOurs file with
  | .error e => .error ("failed to accept ours: " ++ e)
  | .ok _ =>
    match a.addFile file with
    | .error e => .error ("failed to stage file: " ++ e)
    | .ok _ => .ok .acceptedOurs

/-- `Resolver.acceptTheirs`: checkout `--theirs` then stage. -/
def acceptTheirs (a : ResolverActions) (file : String) :
    Except String ResolutionOutcome :=
  match a.checkoutTheirs file with
  | .error e => .error ("failed to accept theirs: " ++ e)
  | .ok _ =>
    match a.addFile file with
    | .error e => .error ("failed to stage file: " ++ e)
    | .ok _ => .ok .acceptedTheirs

/-- `Resolver.editInEditor` (current revision): resolve an editor, run it,
then ask whether to stage; empty answer, `y` and `yes` (case-insensitively)
stage the file, any other answer leaves it unstaged. -/
def editInEditor (a : ResolverActions) (file : String) (script : List String) :
    Option (Except String ResolutionOutcome × List String) :=
  match a.editorName with
  | none =>
    some (.error "no editor found. Please set EDITOR environment variable", script)
  | some editor =>
    match a.runEditor editor file with
    | .error e => some (.error ("failed to open editor: " ++ e), script)
    | .ok _ =>
      match script with
      | [] => none
      | response :: rest =>
        let r := strToLower (trimSpace response)
        if r = "" || r = "y" || r = "yes" then
          match a.addFile file with
          | .error e => some (.error ("failed to stage file: " ++ e), rest)
          | .ok _ => some (.ok (.edited true), rest)
        else
          some (.ok (.edited false), rest)

/-- `Resolver.resolveConflict` (current six-choice revision): one prompt per
script line; `5` (show diff) and `6` (show help) consume the prompt line and
one further press-enter line and re-present; any unrecognised answer
re-presents. -/
def resolveConflict (a : ResolverActions) (file : String) :
    List String → Option (Except String ResolutionOutcome × List String)
  | [] => none
  | input :: rest =>
    let choice := trimSpace input
    if choice = "1" then some (acceptOurs a file, rest)
    else if choice = "2" then some (acceptTheirs a file, rest)
    else if choice = "3" then editInEditor a file rest
    else if choice = "4" then some (.ok .skipped, rest)
    else if choice = "5" then
      match rest with
      | [] => none
      | _ :: rest2 => resolveConflict a file rest2
    else if choice = "6" then
      match rest with
      | [] => none
      | _ :: rest2 => resolveConflict a file rest2
    else resolveConflict a file rest

/-- `Resolver.ResolveConflicts`: sequential session over the conflict list,
stopping at the first per-file error. -/
def ResolveConflicts (a : ResolverActions) :
    List Conflict → List String → Option (Except String Unit × List String)
  | [], script => some (.ok (), script)
  | c :: rest, script =>
    match resolveConflict a c.file script with
    | none => none
    | some (.error e, s) => some (.error e, s)
    | some (.ok _, s) => ResolveConflicts a rest s

/-- Every file of the list reaches a terminal per-file action, threading the
input script through the session. -/
inductive AllTerminal (a : ResolverActions) : List Conflict → List String → Prop
  | nil (script : List String) : AllTerminal a [] script
  | cons (c : Conflict) (cs : List Conflict) (script rest : List String)
      (o : ResolutionOutcome)
      (hstep : resolveConflict a c.file script = some (.ok o, rest))
      (htail : AllTerminal a cs rest) : AllTerminal a (c :: cs) script

theorem resolveConflicts_ok_allTerminal (a : ResolverActions) :
    ∀ (cs : List Conflict) (script r : List String),
      ResolveConflicts a cs script = some (.ok (), r) → AllTerminal a cs script := by
  intro cs
  induction cs with
  | nil =>
    intro script r _
    exact AllTerminal.nil script
  | cons c cs ih =>
    intro script r h
    simp only [ResolveConflicts] at h
    cases hstep : resolveConflict a c.file script with
    | none =>
      rw [hstep] at h
      exact absurd h (by simp)
    | some pr =>
      obtain ⟨res, s'⟩ := pr
      rw [hstep] at h
      cases res with
      | error e => simp at h
      | ok o => exact AllTerminal.cons c cs script s' o hstep (ih s' r h)

/-- C9: the session returns nil only when every file reached a terminal
per-file action (accept-ours, accept-theirs, edit or skip), and a failing
per-file action makes the whole session return that first error at once —
the result does not depend on the files after the failing one. -/
theorem resolveConflicts_contract (a : ResolverActions) (script : List String) :
    (∀ (cs : List Conflict) (r : List String),
        ResolveConflicts a cs script = some (.ok (), r) → AllTerminal a cs script)
      ∧ (∀ (c : Conflict) (e : String) (s : List String),
          resolveConflict a c.file script = some (.error e, s) →
            ∀ rest : List Conflict,
              ResolveConflicts a (c :: rest) script = some (.error e, s)) := by
  constructor
  · intro cs r h
    exact resolveConflicts_ok_allTerminal a cs script r h
  · intro c e s h rest
    simp only [ResolveConflicts, h]

/-- Actions that always succeed. -/
def okActions : ResolverActions :=
  ⟨fun _ => .ok (), fun _ => .ok (), fun _ => .ok (), some "vi", fun _ _ => .ok ()⟩

/-- Actions whose checkout of the local side fails. -/
def failActions : ResolverActions :=
  ⟨fun _ => .error "boom", fun _ => .ok (), fun _ => .ok (), some "vi",
   fun _ _ => .ok ()⟩

/-- Witness for C9: an accept-ours script terminates every file, and a
failing accept-ours aborts a two-file session with the first error, leaving
the second file untouched. -/
theorem resolveConflicts_contract_witness :
    AllTerminal okActions [⟨"a.txt", "x"⟩] ["1"]
      ∧ ResolveConflicts failActions [⟨"a.txt", "x"⟩, ⟨"b.txt", "y"⟩] ["1", "2"]
          = some (.error "failed to accept ours: boom", ["2"]) :=
  ⟨(resolveConflicts_contract okActions ["1"]).1 [⟨"a.txt", "x"⟩] [] (by rfl),
   (resolveConflicts_contract failActions ["1", "2"]).2 ⟨"a.txt", "x"⟩
     "failed to accept ours: boom" ["2"] (by rfl) [⟨"b.txt", "y"⟩]⟩

/-! ## Monitor per-tick evaluation (C4)

Embedding of `checkForChanges` in the monitor revision with sync-status
tracking — the revision whose fields (`lastSyncStatus`, `currentBranch`) the
monitor package tests compile against. Notifications are recorded in the
event trace alongside the issued commands; the merge simulator and the
interactive resolution session enter as parameters so that (non-)dependence
on them is expressible, and the top-level wrapper instantiates the simulator
with `CheckForConflicts`. -/

/-- The configuration switches the evaluation reads. -/
structure Config where
  autoResolve : Bool
  autoPull : Bool

/-- Monitor state threaded between ticks. -/
structure MonitorState where
  lastRemoteCommit : String
  lastSyncStatus : Bool
  currentBranch : String
deriving DecidableEq, Repr

/-- Notifications the evaluation can emit. -/
inductive NotifyKind
  | inSyncNote
  | behindRemote (count : Int)
  | autoPullDone (count : Int)
  | conflictsFound (count : Nat)
deriving DecidableEq, Repr

/-- One observable step of the evaluation: an external command or a
notification. -/
inductive MEvent
  | git (c : GitCmd)
  | note (n : NotifyKind)
deriving DecidableEq, Repr

/-- The merge-simulator interface as the monitor consumes it. -/
abbrev MergeSim := String → Except String (List Conflict) × List GitCmd

/-- `Monitor.attemptAutoPull`. -/
def attemptAutoPull (g : Oracle) (commitCount : Int) :
    Except String Unit × List MEvent :=
  match HasUncommittedChanges g with
  | (.error e, t) =>
    (.error ("failed to check for uncommitted changes: " ++ e), t.map .git)
  | (.ok hasChanges, t) =>
    if hasChanges then
      (.error "uncommitted changes prevent auto-pull", t.map .git)
    else
      match Pull g with
      | (.error e, t2) => (.error ("pull failed: " ++ e), (t ++ t2).map .git)
      | (.ok _, t2) =>
        (.ok (), (t ++ t2).map .git ++ [.note (.autoPullDone commitCount)])

/-- Branch-switch handling at the top of `checkForChanges`: switching resets
the remote-commit tracking and the sync status before the branch is
recorded. -/
def switchState (m : MonitorState) (branch : String) : MonitorState :=
  if m.currentBranch != "" && m.currentBranch != branch then
    ⟨"", false, branch⟩
  else
    ⟨m.lastRemoteCommit, m.lastSyncStatus, branch⟩

/-- The behind-remote segment of `checkForChanges`: count query, behind
notification and optional auto-pull; errors are logged only. -/
def behindEvents (g : Oracle) (cfg : Config) (branch : String) : List MEvent :=
  match IsBehindRemote g branch with
  | (.error _, t3) => t3.map .git
  | (.ok (isBehind, count), t3) =>
    t3.map MEvent.git ++
      (if isBehind then
        [MEvent.note (.behindRemote count)]
          ++ (if cfg.autoPull then (attemptAutoPull g count).2 else [])
      else [])

/-- The conflict segment of `checkForChanges`: the merge simulator runs only
when not in sync; a non-empty conflict list is notified and, with
auto-resolve on, handed to the resolution session. -/
def conflictEvents (sim : MergeSim) (ui : List Conflict → List MEvent)
    (cfg : Config) (branch : String) (inSync : Bool) : List MEvent :=
  if !inSync then
    let simRes := sim ("origin/" ++ branch)
    simRes.2.map MEvent.git ++
      match simRes.1 with
      | .error _ => []
      | .ok conflicts =>
        if 0 < conflicts.length then
          [MEvent.note (.conflictsFound conflicts.length)]
            ++ (if cfg.autoResolve then ui conflicts else [])
        else []
  else []

/-- `Monitor.checkForChanges` with the merge simulator and the conflict
resolution session abstracted as parameters. -/
def checkForChangesGen (g : Oracle) (sim : MergeSim)
    (ui : List Conflict → List MEvent) (cfg : Config) (m : MonitorState) :
    Except String Unit × MonitorState × List MEvent :=
  match Fetch g with
  | (.error e, t) => (.error ("failed to fetch: " ++ e), m, t.map .git)
  | (.ok _, t0) =>
    match GetCurrentBranch g with
    | (.error e, t1) =>
      (.error ("failed to get current branch: " ++ e), m, (t0 ++ t1).map .git)
    | (.ok branch, t1) =>
      let m1 := switchState m branch
      let ev0 := (t0 ++ t1).map MEvent.git
      match IsInSync g branch with
      | (.error _, t2) => (.ok (), m1, ev0 ++ t2.map .git)
      | (.ok inSync, t2) =>
        (.ok (), ⟨m1.lastRemoteCommit, inSync, m1.currentBranch⟩,
         ev0 ++ t2.map MEvent.git
           ++ (if inSync && !m1.lastSyncStatus then [MEvent.note .inSyncNote] else [])
           ++ behindEvents g cfg branch
           ++ conflictEvents sim ui cfg branch inSync)

/-- `Monitor.checkForChanges` proper: the simulator is `CheckForConflicts`. -/
def checkForChanges (g : Oracle) (ui : List Conflict → List MEvent)
    (cfg : Config) (m : MonitorState) :
    Except String Unit × MonitorState × List MEvent :=
  checkForChangesGen g (CheckForConflicts g) ui cfg m

theorem note_not_mem_map_git (t : List GitCmd) (k : NotifyKind) :
    MEvent.note k ∉ t.map MEvent.git := by
  intro h
  rw [List.mem_map] at h
  obtain ⟨c, _, hc⟩ := h
  exact MEvent.noConfusion hc

theorem conflictsFound_not_mem_attemptAutoPull (g : Oracle) (count : Int) (n : Nat) :
    MEvent.note (.conflictsFound n) ∉ (attemptAutoPull g count).2 := by
  intro h
  unfold attemptAutoPull at h
  cases hu : HasUncommittedChanges g with
  | mk res t =>
    rw [hu] at h
    cases res with
    | error e => exact note_not_mem_map_git t _ h
    | ok hasChanges =>
      cases hasChanges with
      | true =>
        simp only [if_true] at h
        exact note_not_mem_map_git t _ h
      | false =>
        simp only [Bool.false_eq_true, if_false] at h
        cases hp : Pull g with
        | mk res2 t2 =>
          rw [hp] at h
          cases res2 with
          | error e => exact note_not_mem_map_git (t ++ t2) _ h
          | ok u =>
            rw [List.mem_append] at h
            rcases h with h | h
            · exact note_not_mem_map_git (t ++ t2) _ h
            · simp at h

theorem conflictsFound_not_mem_behindEvents (g : Oracle) (cfg : Config)
    (branch : String) (n : Nat) :
    MEvent.note (.conflictsFound n) ∉ behindEvents g cfg branch := by
  intro h
  unfold behindEvents at h
  cases hB : IsBehindRemote g branch with
  | mk res t3 =>
    rw [hB] at h
    cases res with
    | error e => exact note_not_mem_map_git t3 _ h
    | ok pr =>
      obtain ⟨isBehind, count⟩ := pr
      rw [List.mem_append] at h
      rcases h with h | h
      · exact note_not_mem_map_git t3 _ h
      · cases isBehind with
        | false => simp at h
        | true =>
          simp only [if_true] at h
          rw [List.mem_append] at h
          rcases h with h | h
          · simp at h
          · cases hap : cfg.autoPull with
            | false =>
              rw [hap] at h
              simp at h
            | true =>
              rw [hap] at h
              simp only [if_true] at h
              exact conflictsFound_not_mem_attemptAutoPull g count n h

theorem conflictEvents_insync (sim : MergeSim) (ui : List Conflict → List MEvent)
    (cfg : Config) (branch : String) :
    conflictEvents sim ui cfg branch true = [] := rfl

/-- C4: on any evaluation in which the local and the remote commit id
resolve and are equal, the tick reports no conflicts (no conflicts-found
notification is emitted) and never invokes the merge simulator: the entire
result is independent of the simulator and of the resolution session. -/
theorem checkForChanges_insync_no_sim (g : Oracle) (cfg : Config) (m : MonitorState)
    (sim sim' : MergeSim) (ui ui' : List Conflict → List MEvent) (brn : String)
    (hbrn : brn = trimSpace (g currentBranchCmd).stdout)
    (hf : (g fetchAllCmd).ok = true)
    (hb : (g currentBranchCmd).ok = true)
    (hv : validateBranchName brn = .ok ())
    (hl : (g (revParseCmd brn)).ok = true)
    (hr : (g (revParseCmd ("origin/" ++ brn))).ok = true)
    (heq : trimSpace (g (revParseCmd brn)).stdout
      = trimSpace (g (revParseCmd ("origin/" ++ brn))).stdout) :
    checkForChangesGen g sim ui cfg m = checkForChangesGen g sim' ui' cfg m
      ∧ ∀ n, MEvent.note (.conflictsFound n) ∉ (checkForChanges g ui cfg m).2.2 := by
  have hFetch : Fetch g = (.ok (), [fetchAllCmd]) := by
    simp [Fetch, hf]
  have hCur : GetCurrentBranch g = (.ok brn, [currentBranchCmd]) := by
    simp [GetCurrentBranch, hb, hbrn]
  have hsync : IsInSync g brn
      = (.ok true, [fetchAllCmd, revParseCmd brn, revParseCmd ("origin/" ++ brn)]) := by
    unfold IsInSync Fetch GetLocalCommit GetRemoteCommit
    rw [hv]
    simp only [hf, if_true, hl, hr]
    simp only [heq, beq_self_eq_true]
    rfl
  have key : ∀ (sm : MergeSim) (u : List Conflict → List MEvent),
      checkForChangesGen g sm u cfg m
        = (.ok (), ⟨(switchState m brn).lastRemoteCommit, true,
            (switchState m brn).currentBranch⟩,
           ([fetchAllCmd] ++ [currentBranchCmd]).map MEvent.git
             ++ ([fetchAllCmd, revParseCmd brn,
                  revParseCmd ("origin/" ++ brn)]).map MEvent.git
             ++ (if true && !(switchState m brn).lastSyncStatus then
                  [MEvent.note .inSyncNote] else [])
             ++ behindEvents g cfg brn
             ++ conflictEvents sm u cfg brn true) := by
    intro sm u
    unfold checkForChangesGen
    rw [hFetch, hCur]
    simp only [hsync]
  constructor
  · rw [key sim ui, key sim' ui', conflictEvents_insync, conflictEvents_insync]
  · intro n
    unfold checkForChanges
    rw [key (CheckForConflicts g) ui]
    intro hmem
    simp only [List.mem_append] at hmem
    rcases hmem with ((((h | h) | h) | h) | h)
    · exact note_not_mem_map_git _ _ h
    · exact note_not_mem_map_git _ _ h
    · cases hc : (true && !(switchState m brn).lastSyncStatus) with
      | false => rw [hc] at h; simp at h
      | true => rw [hc] at h; simp at h
    · exact conflictsFound_not_mem_behindEvents g cfg brn n h
    · rw [conflictEvents_insync] at h
      exact List.not_mem_nil _ h

/-- An oracle for the C4 witness: current branch `main`, local and remote
commit both `deadbeef`, every invocation succeeding. -/
def inSyncOracle : Oracle := fun c =>
  if c = currentBranchCmd then ⟨true, "main\n", "", ""⟩
  else if c = revParseCmd "main" then ⟨true, "deadbeef\n", "", ""⟩
  else if c = revParseCmd "origin/main" then ⟨true, "deadbeef\n", "", ""⟩
  else ⟨true, "", "", ""⟩

/-- A simulator claiming a conflict, and one failing outright. -/
def simConflicting : MergeSim :=
  fun _ => (.ok [⟨"f.txt", "c"⟩], [mergeTreeCmd "main" "origin/main"])

/-- See `simConflicting`. -/
def simFailing : MergeSim := fun _ => (.error "merge-tree failed: x", [])

/-- Witness for C4: with local = remote, the evaluation result does not
depend on the merge simulator or the resolution session. -/
theorem checkForChanges_insync_no_sim_witness :
    checkForChangesGen inSyncOracle simConflicting (fun _ => []) ⟨true, true⟩
        ⟨"", false, ""⟩
      = checkForChangesGen inSyncOracle simFailing
          (fun _ => [MEvent.note (.conflictsFound 7)]) ⟨true, true⟩ ⟨"", false, ""⟩ :=
  (checkForChanges_insync_no_sim inSyncOracle ⟨true, true⟩ ⟨"", false, ""⟩
    simConflicting simFailing (fun _ => [])
    (fun _ => [MEvent.note (.conflictsFound 7)]) "main"
    (by decide) (by decide) (by decide) (by rfl) (by decide) (by decide) (by decide)).1

end Harbinger
